import Mathlib

/-!
# Canterbury–Westland site script: a verification development

A shallow embedding of `assets/js/script.js` (sanitizer utilities, data-driven
renderers, renderer registry and hydration, projects filter, lightbox) and the
properties proved about it.

Conventions of the embedding:

* a JavaScript string is a `List Char` (`Str`); every pattern used by the script
  is ASCII, so the code-unit/code-point distinction plays no role;
* a record field that may be absent is a `Str` with `[]` standing for
  `undefined`: every use in the script is `x || ''`, `safeHTML(x)` (which is
  `String(x || '')`), a truthiness test, or `Array.prototype.join`, and all four
  treat `undefined` and `''` alike;
* a date field holds a valid date and is the instant `new Date(field)` denotes, in
  milliseconds since the epoch (`Int`); a date-only ISO string denotes midnight
  UTC of that day; a winner's year is a number or absent; a field that does not
  parse, for which the sort comparators give `NaN`, is outside the model;
* `Array.prototype.sort` is a stable sort, embedded as a stable insertion sort
  driven by the script's own comparator.
-/

namespace CWSite

/-- A JavaScript string. -/
abbrev Str := List Char

/-! ## Utilities -/

/-- The replacement table of `safeHTML`:
`{ '&': '&amp;', '<': '&lt;', '>': '&gt;', '"': '&quot;' }[c]`, applied to the
characters matched by `/[&<>"]/g`; every other character is kept. -/
def escapeChar (c : Char) : Str :=
  if c = '&' then "&amp;".toList
  else if c = '<' then "&lt;".toList
  else if c = '>' then "&gt;".toList
  else if c = '"' then "&quot;".toList
  else [c]

/-- Embeds `safeHTML(s)`: `String(s || '').replace(/[&<>"]/g, ...)`. -/
def safeHTML (s : Str) : Str :=
  s.flatMap escapeChar

/-- The characters removed by `String.prototype.trim`: ECMAScript `WhiteSpace`
and `LineTerminator`. -/
def isTrimChar (c : Char) : Bool :=
  let n := c.toNat
  n = 0x09 || n = 0x0A || n = 0x0B || n = 0x0C || n = 0x0D || n = 0x20 ||
  n = 0xA0 || n = 0x1680 || (0x2000 ≤ n && n ≤ 0x200A) || n = 0x2028 ||
  n = 0x2029 || n = 0x202F || n = 0x205F || n = 0x3000 || n = 0xFEFF

/-- Embeds `String.prototype.trim`. -/
def trim (s : Str) : Str :=
  ((s.dropWhile isTrimChar).reverse.dropWhile isTrimChar).reverse

/-- A regular expression `/^p/i` for a lower-case ASCII literal `p`: the subject
starts with `p` up to ASCII case. -/
def startsWithCI (p s : Str) : Bool :=
  p.isPrefixOf (s.map Char.toLower)

/-- The test `/^#/i`. -/
def isFragment (h : Str) : Bool :=
  startsWithCI "#".toList h

/-- The test `/^(?:https?:|mailto:|tel:|\/\/)/i`. -/
def isAbsolute (h : Str) : Bool :=
  startsWithCI "http:".toList h || startsWithCI "https:".toList h ||
  startsWithCI "mailto:".toList h || startsWithCI "tel:".toList h ||
  startsWithCI "//".toList h

/-- The call `h.startsWith('/')`. -/
def isRooted (h : Str) : Bool :=
  "/".toList.isPrefixOf h

/-- The call `h.replace(/^\/+/, '')`. -/
def stripLeadingSlashes (h : Str) : Str :=
  h.dropWhile (· = '/')

/-- Embeds `normalizeHref(h)` on a string argument. -/
def normalizeHref (h : Str) : Str :=
  if h = [] then h
  else
    let h := trim h
    if isFragment h then h
    else if isAbsolute h then h
    else if isRooted h then h
    else '/' :: stripLeadingSlashes h

/-! ## Array primitives -/

/-- A string literal of the script, as a `Str`. -/
def lit (s : String) : Str := s.toList

/-- The call `xs.slice(0, e)` for an integer `e`: a negative `e` counts from the
end of the array. -/
def slice0 {α : Type} (xs : List α) (e : Int) : List α :=
  if e < 0 then xs.take (xs.length - e.natAbs) else xs.take e.toNat

/-- The expression `limit || n`: an absent limit and the limit `0` are both
falsy and give `n`. -/
def limitOr (limit : Option Int) (n : Nat) : Int :=
  match limit with
  | none => n
  | some k => if k = 0 then n else k

/-- One insertion step of the stable sort: `a`, which precedes every element of
the list in the original array, goes before the first `b` with `cmp(a, b) <= 0`. -/
def insertBy {α : Type} (cmp : α → α → Int) (a : α) : List α → List α
  | [] => [a]
  | b :: l => if cmp a b ≤ 0 then a :: b :: l else b :: insertBy cmp a l

/-- Embeds `[...list].sort(cmp)`: the stable sort of a copy of the array under the
comparator `cmp` (negative: first argument first). -/
def sortBy {α : Type} (cmp : α → α → Int) : List α → List α
  | [] => []
  | a :: l => insertBy cmp a (sortBy cmp l)

/-- Embeds `parts.join('')`. -/
def joinAll (parts : List Str) : Str := parts.flatten

/-- Embeds `parts.join(sep)`. -/
def joinWith (sep : Str) : List Str → Str
  | [] => []
  | [a] => a
  | a :: b :: l => a ++ sep ++ joinWith sep (b :: l)

/-- The template fragment `${c ? s : ''}` for a string `c`. -/
def whenSet (c : Str) (s : Str) : Str := if c = [] then [] else s

/-! ## Data model -/

/-- An event record. -/
structure Event where
  id : Str
  title : Str
  date : Int
  time : Str
  location : Str
  description : Str
  category : Str
  link : Str
deriving DecidableEq, Repr

/-- An announcement record. -/
structure Announcement where
  id : Str
  title : Str
  date : Int
  summary : Str
  link : Str
deriving DecidableEq, Repr

/-- A project record. -/
structure Project where
  id : Str
  title : Str
  images : List Str
  student : Str
  grade : Str
  summary : Str
  category : List Str
  detailsLink : Str
deriving DecidableEq, Repr

/-- A committee member record. -/
structure Member where
  name : Str
  role : Str
  bio : Str
  photo : Str
  email : Str
deriving DecidableEq, Repr

/-- A resource record. -/
structure Resource where
  title : Str
  url : Str
  type : Str
  size : Str
  external : Bool
deriving DecidableEq, Repr

/-- A prize record. -/
structure Prize where
  id : Str
  title : Str
  sponsor : Str
  description : Str
  category : Str
deriving DecidableEq, Repr

/-- A winner record; the year `0` stands for an absent year (`w.year || 0` and
`String(w.year || '')` treat both alike). -/
structure Winner where
  year : Int
  prize : Str
  project : Str
  student : Str
  category : Str
  link : Str
deriving DecidableEq, Repr

/-- What the script reads from the platform: the clock `Date.now()` and the
locale formatting done by `formatNZDate(isoDate, time)`. -/
structure Env where
  now : Int
  formatNZDate : Int → Str → Str

/-! ## Renderers -/

/-- The `items` of `renderEvents(list, limit)` when `Date.now()` is `now`. -/
def eventsItems (now : Int) (list : List Event) (limit : Option Int) : List Event :=
  let sorted := sortBy (fun a b => a.date - b.date) list
  let upcoming := sorted.filter (fun e => decide (e.date ≥ now - 86400000))
  slice0 (if upcoming.length ≠ 0 then upcoming else sorted) (limitOr limit sorted.length)

/-- The card template of `renderEvents`. -/
def eventCard (env : Env) (e : Event) : Str :=
  lit "\n    <article class=\"card\" id=\"" ++ safeHTML e.id ++ lit "\">\n      <h3>" ++
  safeHTML e.title ++ lit "</h3>\n      <p class=\"meta\">" ++
  safeHTML (env.formatNZDate e.date e.time) ++ lit " · " ++ safeHTML e.location ++
  lit "</p>\n      <p>" ++ safeHTML e.description ++
  lit "</p>\n      <div class=\"chips\"><span class=\"chip\">" ++ safeHTML e.category ++
  lit "</span></div>\n      " ++
  whenSet e.link (lit "<p><a class=\"btn\" href=\"" ++ safeHTML (normalizeHref e.link) ++
    lit "\">Learn more</a></p>") ++
  lit "\n    </article>"

/-- Embeds `renderEvents(list, limit)`. -/
def renderEvents (env : Env) (list : List Event) (limit : Option Int) : Str :=
  joinAll ((eventsItems env.now list limit).map (eventCard env))

/-- The items of `renderAnnouncements(list, limit)`:
`sorted.slice(0, limit || sorted.length)`. -/
def announcementsItems (list : List Announcement) (limit : Option Int) : List Announcement :=
  let sorted := sortBy (fun a b => b.date - a.date) list
  slice0 sorted (limitOr limit sorted.length)

/-- The card template of `renderAnnouncements`. -/
def announcementCard (env : Env) (a : Announcement) : Str :=
  lit "\n    <article class=\"card\" id=\"" ++ safeHTML a.id ++ lit "\">\n      <h3>" ++
  safeHTML a.title ++ lit "</h3>\n      <p class=\"meta\">" ++
  safeHTML (env.formatNZDate a.date []) ++ lit "</p>\n      <p>" ++ safeHTML a.summary ++
  lit "</p>\n      " ++
  whenSet a.link (lit "<p><a class=\"btn\" href=\"" ++ safeHTML (normalizeHref a.link) ++
    lit "\">Read more</a></p>") ++
  lit "\n    </article>"

/-- Embeds `renderAnnouncements(list, limit)`. -/
def renderAnnouncements (env : Env) (list : List Announcement) (limit : Option Int) : Str :=
  joinAll ((announcementsItems list limit).map (announcementCard env))

/-- The items of `renderProjects(list, limit)`: `list.slice(0, limit || list.length)`. -/
def projectsItems (list : List Project) (limit : Option Int) : List Project :=
  slice0 list (limitOr limit list.length)

/-- The expression `(p.images && p.images[0]) || '/assets/images/placeholder-1200x800.jpg'`. -/
def projectImage (p : Project) : Str :=
  match p.images with
  | [] => lit "/assets/images/placeholder-1200x800.jpg"
  | s :: _ => if s = [] then lit "/assets/images/placeholder-1200x800.jpg" else s

/-- The card template of `renderProjects`. -/
def projectCard (p : Project) : Str :=
  lit "\n    <article class=\"card\" id=\"" ++ safeHTML p.id ++ lit "\">\n      <img src=\"" ++
  safeHTML (projectImage p) ++ lit "\" alt=\"" ++ safeHTML p.title ++
  lit "\" loading=\"lazy\" width=\"1200\" height=\"800\" />\n      <h3>" ++ safeHTML p.title ++
  lit "</h3>\n      <p class=\"meta\">" ++ safeHTML p.student ++ lit " · " ++ safeHTML p.grade ++
  lit "</p>\n      <p>" ++ safeHTML p.summary ++ lit "</p>\n      <div class=\"chips\">" ++
  joinAll (p.category.map (fun c => lit "<span class=\"chip\">" ++ safeHTML c ++ lit "</span>")) ++
  lit "</div>\n      " ++
  whenSet p.detailsLink (lit "<p><a class=\"btn\" href=\"" ++
    safeHTML (normalizeHref p.detailsLink) ++ lit "\">View details</a></p>") ++
  lit "\n    </article>"

/-- Embeds `renderProjects(list, limit)`. -/
def renderProjects (list : List Project) (limit : Option Int) : Str :=
  joinAll ((projectsItems list limit).map projectCard)

/-- The card template of `renderMembers`. -/
def memberCard (m : Member) : Str :=
  lit "\n    <article class=\"card\" style=\"text-align:center\">\n      <img src=\"" ++
  safeHTML (if m.photo = [] then lit "/assets/images/headshot-placeholder.jpg" else m.photo) ++
  lit "\" alt=\"" ++ safeHTML m.name ++
  lit "\" width=\"400\" height=\"400\" loading=\"lazy\" style=\"border-radius:999px; margin-inline:auto; width:160px; height:160px; object-fit:cover\" />\n      <h3>" ++
  safeHTML m.name ++ lit "</h3>\n      <p class=\"meta\">" ++ safeHTML m.role ++
  lit "</p>\n      <p>" ++ safeHTML m.bio ++ lit "</p>\n      " ++
  whenSet m.email (lit "<p><a class=\"btn\" href=\"mailto:" ++ safeHTML m.email ++
    lit "\">Email</a></p>") ++
  lit "\n    </article>"

/-- Embeds `renderMembers(list)`: the function has no `limit` parameter. -/
def renderMembers (list : List Member) : Str :=
  joinAll (list.map memberCard)

/-- The row template of `renderResources`. -/
def resourceRow (r : Resource) : Str :=
  lit "\n    <tr>\n      <td><a href=\"" ++
  safeHTML (normalizeHref (if r.url = [] then lit "#" else r.url)) ++ lit "\" " ++
  (if r.external then lit "target=\"_blank\" rel=\"noopener noreferrer\"" else []) ++
  lit ">" ++ safeHTML r.title ++ lit "</a></td>\n      <td>" ++ safeHTML r.type ++
  lit "</td>\n      <td>" ++ safeHTML r.size ++ lit "</td>\n    </tr>"

/-- Embeds `renderResources(list)`: the rows wrapped in the table markup; the function
has no `limit` parameter. -/
def renderResources (list : List Resource) : Str :=
  lit "<div class=\"card\"><div class=\"table-wrap\"><table class=\"table\" aria-describedby=\"resources-desc\"><thead><tr><th>Title</th><th>Type</th><th>Size</th></tr></thead><tbody>" ++
  joinAll (list.map resourceRow) ++ lit "</tbody></table></div></div>"

/-- The items of `renderPrizes(list, limit)`: `list.slice(0, limit || list.length)`. -/
def prizesItems (list : List Prize) (limit : Option Int) : List Prize :=
  slice0 list (limitOr limit list.length)

/-- The card template of `renderPrizes`. -/
def prizeCard (p : Prize) : Str :=
  lit "\n    <article class=\"card\" id=\"" ++ safeHTML p.id ++ lit "\">\n      <h3>" ++
  safeHTML p.title ++ lit "</h3>\n      " ++
  whenSet p.sponsor (lit "<p class=\"meta\">Sponsored by " ++ safeHTML p.sponsor ++ lit "</p>") ++
  lit "\n      <p>" ++ safeHTML p.description ++ lit "</p>\n      " ++
  whenSet p.category (lit "<div class=\"chips\"><span class=\"chip\">" ++ safeHTML p.category ++
    lit "</span></div>") ++
  lit "\n    </article>"

/-- Embeds `renderPrizes(list, limit)`. -/
def renderPrizes (list : List Prize) (limit : Option Int) : Str :=
  joinAll ((prizesItems list limit).map prizeCard)

/-- The items of `renderWinners(list, limit)`; the comparator is
`(b.year || 0) - (a.year || 0)`. -/
def winnersItems (list : List Winner) (limit : Option Int) : List Winner :=
  let sorted := sortBy (fun a b => b.year - a.year) list
  slice0 sorted (limitOr limit sorted.length)

/-- The text `String(w.year || '')` of a year. -/
def yearText (y : Int) : Str :=
  if y = 0 then [] else (toString y).toList

/-- The card template of `renderWinners`. -/
def winnerCard (w : Winner) : Str :=
  lit "\n    <article class=\"card\">\n      <h3>" ++ safeHTML (yearText w.year) ++ lit " — " ++
  safeHTML w.prize ++ lit "</h3>\n      <p class=\"meta\">Project: " ++ safeHTML w.project ++
  whenSet w.student (lit " — " ++ safeHTML w.student) ++
  whenSet w.category (lit " · " ++ safeHTML w.category) ++ lit "</p>\n      " ++
  whenSet w.link (lit "<p><a class=\"btn\" href=\"" ++ safeHTML (normalizeHref w.link) ++
    lit "\">Read</a></p>") ++
  lit "\n    </article>"

/-- Embeds `renderWinners(list, limit)`. -/
def renderWinners (list : List Winner) (limit : Option Int) : Str :=
  joinAll ((winnersItems list limit).map winnerCard)

/-! ## Renderer registry and hydration -/

/-- The seven own keys of the `renderers` object. -/
inductive Component
  | events | announcements | projects | members | resources | prizes | winners
deriving DecidableEq, Repr

/-- The record shape each renderer reads. -/
def RecordOf : Component → Type
  | .events => Event
  | .announcements => Announcement
  | .projects => Project
  | .members => Member
  | .resources => Resource
  | .prizes => Prize
  | .winners => Winner

/-- The own properties of the object literal `renderers`. -/
def renderers (name : Str) : Option Component :=
  if name = lit "events" then some .events
  else if name = lit "announcements" then some .announcements
  else if name = lit "projects" then some .projects
  else if name = lit "members" then some .members
  else if name = lit "resources" then some .resources
  else if name = lit "prizes" then some .prizes
  else if name = lit "winners" then some .winners
  else none

/-- The call `renderers[k](list, limit)` of a registered renderer:
`renderMembers` and `renderResources` declare no second parameter. -/
def render (env : Env) : (k : Component) → List (RecordOf k) → Option Int → Str
  | .events, list, limit => renderEvents env list limit
  | .announcements, list, limit => renderAnnouncements env list limit
  | .projects, list, limit => renderProjects list limit
  | .members, list, _ => renderMembers list
  | .resources, list, _ => renderResources list
  | .prizes, list, limit => renderPrizes list limit
  | .winners, list, limit => renderWinners list limit

/-- A successfully loaded data file: a JSON array of `length` plain objects,
together with the way each renderer reads its records (the records are duck
typed: a renderer sees only the fields it asks for). -/
structure Dataset where
  length : Nat
  read : (k : Component) → List (RecordOf k)

/-- The function-valued properties `renderers` inherits from `Object.prototype`. -/
inductive ProtoFn
  | construct | toString | toLocaleString | valueOf | hasOwnProperty | isPrototypeOf
  | propertyIsEnumerable | defineGetter | defineSetter | lookupGetter | lookupSetter
deriving DecidableEq, Repr

/-- The value of the property access `renderers[component]`. -/
inductive Slot
  | renderer (k : Component)
  | protoFunction (f : ProtoFn)
  | protoObject
  | undefined
deriving DecidableEq, Repr

/-- Embeds `renderers[component]`: an own property if there is one, else the property of
that name on `Object.prototype`, the prototype of every object literal
(`__proto__` is its accessor and yields `Object.prototype` itself), else
`undefined`. -/
def renderersGet (component : Str) : Slot :=
  match renderers component with
  | some k => .renderer k
  | none =>
    if component = lit "constructor" then .protoFunction .construct
    else if component = lit "toString" then .protoFunction .toString
    else if component = lit "toLocaleString" then .protoFunction .toLocaleString
    else if component = lit "valueOf" then .protoFunction .valueOf
    else if component = lit "hasOwnProperty" then .protoFunction .hasOwnProperty
    else if component = lit "isPrototypeOf" then .protoFunction .isPrototypeOf
    else if component = lit "propertyIsEnumerable" then .protoFunction .propertyIsEnumerable
    else if component = lit "__defineGetter__" then .protoFunction .defineGetter
    else if component = lit "__defineSetter__" then .protoFunction .defineSetter
    else if component = lit "__lookupGetter__" then .protoFunction .lookupGetter
    else if component = lit "__lookupSetter__" then .protoFunction .lookupSetter
    else if component = lit "__proto__" then .protoObject
    else .undefined

/-- Embeds `String(data)` for an array of plain objects: `Array.prototype.join` of
`[object Object]` once per element. -/
def arrayText (n : Nat) : Str :=
  joinWith (lit ",") (List.replicate n (lit "[object Object]"))

/-- The string `renderers[name](data, limit) || ''` leaves in `innerHTML` when
`name` is an inherited function, or `none` when the call throws a `TypeError`.
`Object(data)` is `data`; `toString`, `toLocaleString` and `valueOf` give the
text of `renderers` itself; the property tests take `String(data)` as the key;
the accessor definers reject a non-callable second argument; the accessor
lookups find no accessor under the key `String(data)`, which is never
`__proto__`. -/
def callProto (f : ProtoFn) (data : Dataset) : Option Str :=
  match f with
  | .construct => some (arrayText data.length)
  | .toString => some (lit "[object Object]")
  | .toLocaleString => some (lit "[object Object]")
  | .valueOf => some (lit "[object Object]")
  | .hasOwnProperty => some (if (renderers (arrayText data.length)).isSome then lit "true" else [])
  | .isPrototypeOf => some []
  | .propertyIsEnumerable =>
    some (if (renderers (arrayText data.length)).isSome then lit "true" else [])
  | .defineGetter => none
  | .defineSetter => none
  | .lookupGetter => some []
  | .lookupSetter => some []

/-- What one iteration of `hydrateMountpoints` leaves behind. -/
structure Mounted where
  innerHTML : Str
  errorLogged : Bool
deriving DecidableEq, Repr

/-- The fallback fragment of the `catch` branch. -/
def fallback : Str :=
  lit "<div class=\"card\"><p class=\"muted\">Unable to load content. Please try again later.</p></div>"

/-- Embeds `Number(el.getAttribute('data-limit')) || undefined`, on the integer
`dataLimit` the attribute denotes (`0` when it is absent or not a number). -/
def limitOfAttr (dataLimit : Int) : Option Int :=
  if dataLimit = 0 then none else some dataLimit

/-- One iteration of the loop of `hydrateMountpoints`, for a mount point with the
given `data-component` and `data-limit`; `loaded` is `none` when `loadJSON`
throws. -/
def hydrateMountpoint (env : Env) (component : Str) (dataLimit : Int)
    (loaded : Option Dataset) : Mounted :=
  match loaded with
  | none => ⟨fallback, true⟩
  | some data =>
    match renderersGet component with
    | .renderer k => ⟨render env k (data.read k) (limitOfAttr dataLimit), false⟩
    | .undefined => ⟨[], false⟩
    | .protoObject => ⟨fallback, true⟩
    | .protoFunction f =>
      match callProto f data with
      | some s => ⟨s, false⟩
      | none => ⟨fallback, true⟩

/-! ## Projects page: search and filters -/

/-! `String.prototype.toLowerCase` is a primitive of the platform (it is context
sensitive and may change the length of a string); the filter takes it as the
parameter `toLowerCase`. -/

/-- Embeds `hay.includes(q)`. -/
def includes (hay q : Str) : Bool :=
  hay.tails.any (fun t => q.isPrefixOf t)

/-- The `hay` of a project:
`[p.title, p.student, p.summary, ...(p.category || [])].join(' ').toLowerCase()`. -/
def haystack (toLowerCase : Str → Str) (p : Project) : Str :=
  toLowerCase (joinWith (lit " ") ([p.title, p.student, p.summary] ++ p.category))

/-- The loaded projects page: the dataset and the current values of the three
controls. -/
structure ProjectsPage where
  data : List Project
  search : Str
  category : Str
  grade : Str

/-- The array `filtered` computed by `apply()`. -/
def ProjectsPage.filtered (toLowerCase : Str → Str) (pg : ProjectsPage) : List Project :=
  let q := toLowerCase pg.search
  let cat := pg.category
  let grade := pg.grade
  pg.data.filter (fun p =>
    let hay := haystack toLowerCase p
    let matchesQ := decide (q = []) || includes hay q
    let matchesCat := decide (cat = []) || p.category.contains cat
    let matchesGrade := decide (grade = []) || decide (p.grade = grade)
    matchesQ && matchesCat && matchesGrade)

/-- The list markup written by `apply()`: `renderProjects(filtered)`. -/
def ProjectsPage.apply (toLowerCase : Str → Str) (pg : ProjectsPage) : Str :=
  renderProjects (pg.filtered toLowerCase) none

/-! ## Lightbox -/

/-- The elements that can hold focus: the overlay's close button, its content
pane, the document body, and the elements of the page. -/
inductive Element
  | body | closeBtn | contentPane | page (n : Nat)
deriving DecidableEq, Repr

/-- The state the lightbox code reads and writes. `focus()` is taken to succeed
on the element it is called on. -/
structure Window where
  overlays : Nat
  api : Bool
  isOpen : Bool
  content : Str
  lastFocused : Option Element
  activeElement : Element
  trap : Bool
deriving DecidableEq, Repr

/-- A freshly loaded page with `x` focused: no overlay, no lightbox API. -/
def Window.fresh (x : Element) : Window :=
  ⟨0, false, false, [], none, x, false⟩

/-- Embeds `window.initLightbox()`: returns the memoized API if there is one, else
appends one backdrop to the body and stores the API. -/
def initLightbox (w : Window) : Window :=
  if w.api then w
  else { w with overlays := w.overlays + 1, api := true, isOpen := false, content := [],
                lastFocused := none }

/-- The markup `open(src, alt)` writes into the content pane. -/
def imageMarkup (src alt : Str) : Str :=
  lit "<img src=\"" ++ safeHTML src ++ lit "\" alt=\"" ++ safeHTML alt ++ lit "\" />"

/-- The API function `open(src, alt)`. -/
def lightboxOpen (w : Window) (src alt : Str) : Window :=
  { w with content := imageMarkup src alt, isOpen := true,
           lastFocused := some w.activeElement, activeElement := .closeBtn, trap := true }

/-- The API function `close()`. -/
def lightboxClose (w : Window) : Window :=
  { w with isOpen := false, content := [], trap := false,
           activeElement := match w.lastFocused with
             | some e => e
             | none => w.activeElement }

/-- A run of `open(src, alt)` calls, in order. -/
def openAll (w : Window) (calls : List (Str × Str)) : Window :=
  calls.foldl (fun w c => lightboxOpen w c.1 c.2) w

/-! ## Vocabulary of the properties -/

/-- The four entities `safeHTML` produces. -/
def entities : List Str :=
  [lit "&amp;", lit "&lt;", lit "&gt;", lit "&quot;"]

/-- The links `normalizeHref` is meant to leave alone: a fragment, an absolute or
protocol-relative URL, or a rooted path. -/
def passesThrough (h : Str) : Bool :=
  isFragment h || isAbsolute h || isRooted h

/-- A URL scheme name: a letter followed by letters, digits, `+`, `-` or `.`. -/
def isSchemeName (name : Str) : Bool :=
  match name with
  | [] => false
  | c :: cs => c.isAlpha && cs.all (fun d => d.isAlphanum || d = '+' || d = '-' || d = '.')

/-- The string `s` begins, up to ASCII case, with the scheme `name` and a colon. -/
def beginsWithScheme (name s : Str) : Bool :=
  (name.map Char.toLower ++ [':']).isPrefixOf (s.map Char.toLower)

/-- Milliseconds in a day. -/
def dayMs : Int := 86400000

/-- The calendar day, in days since the epoch, that the instant `t` falls on for
a clock `tz` milliseconds ahead of UTC. -/
def dayOf (tz t : Int) : Int :=
  (t + tz) / dayMs

/-- An event is dated today or later: its date is no earlier than the calendar
day of `now` (an event dated on day `d` has the date `d * dayMs`). -/
def datedTodayOrLater (tz now : Int) (e : Event) : Bool :=
  decide (dayOf tz now * dayMs ≤ e.date)

/-- The rendering rule for events as a reader of the page would state it, for a
clock `tz` milliseconds ahead of UTC: the output is in ascending date order; it
holds exactly the events dated today or later when there is one, and every
event of the list when there is none. -/
def todayRule (tz now : Int) (list : List Event) : Prop :=
  (eventsItems now list none).Pairwise (fun a b => a.date ≤ b.date) ∧
  ((∃ e ∈ list, datedTodayOrLater tz now e = true) →
    (eventsItems now list none).Perm (list.filter (datedTodayOrLater tz now))) ∧
  ((∀ e ∈ list, datedTodayOrLater tz now e = false) → (eventsItems now list none).Perm list)

/-- An event with the given date and title and nothing else. -/
def eventOn (date : Int) (title : Str) : Event :=
  ⟨[], title, date, [], [], [], [], []⟩

/-- An announcement with the given date and id and nothing else. -/
def announcementOn (date : Int) (id : Str) : Announcement :=
  ⟨id, [], date, [], []⟩

/-- A winner with the given year and prize and nothing else. -/
def winnerIn (year : Int) (prize : Str) : Winner :=
  ⟨year, prize, [], [], [], []⟩

/-- A project with the given title, student and summary and nothing else. -/
def projectBy (title student summary : Str) : Project :=
  ⟨[], title, [], student, [], summary, [], []⟩

/-- A member with the given name and nothing else. -/
def memberNamed (name : Str) : Member :=
  ⟨name, [], [], [], []⟩

/-- A platform whose clock stands at the epoch and whose date formatter prints
nothing. -/
def Env.blank : Env :=
  ⟨0, fun _ _ => []⟩

/-- The query `q` occurs, up to case, as a substring of the text `s`: the
lower-cased `q` is a substring of the lower-cased `s`. -/
def occursIn (toLowerCase : Str → Str) (q s : Str) : Bool :=
  includes (toLowerCase s) (toLowerCase q)

/-- The query `q` occurs, up to case, in the title, the student, the summary or
a category tag of the project. -/
def occursInRecord (toLowerCase : Str → Str) (q : Str) (p : Project) : Bool :=
  occursIn toLowerCase q p.title || occursIn toLowerCase q p.student ||
  occursIn toLowerCase q p.summary || p.category.any (occursIn toLowerCase q)

/-- The text of a project: its title, student, summary and category tags joined
by single spaces. -/
def recordText (p : Project) : Str :=
  joinWith (lit " ") ([p.title, p.student, p.summary] ++ p.category)

/-- The query `q` occurs, up to case, in the text of the project. -/
def occursInText (toLowerCase : Str → Str) (q : Str) (p : Project) : Bool :=
  occursIn toLowerCase q (recordText p)

/-- What the filter relies on in `String.prototype.toLowerCase`: a non-empty
string stays non-empty, and lower-casing goes through a space (a space is
neither a cased letter nor case-ignorable, so no context rule reaches across
it). -/
structure LowerCaseLaws (toLowerCase : Str → Str) : Prop where
  nonempty : ∀ s, s ≠ [] → toLowerCase s ≠ []
  space_join : ∀ a b, toLowerCase (a ++ ' ' :: b) = toLowerCase a ++ ' ' :: toLowerCase b

/-- The value of `String.prototype.toLowerCase` on ASCII text. -/
def asciiLowerCase (s : Str) : Str :=
  s.map Char.toLower

/-! ## Sanitizer -/


theorem escapeChar_clean (c : Char) :
    '<' ∉ escapeChar c ∧ '>' ∉ escapeChar c ∧ '"' ∉ escapeChar c := by
  unfold escapeChar
  split_ifs with h1 h2 h3 h4
  · decide
  · decide
  · decide
  · decide
  · simp only [List.mem_singleton]
    exact ⟨fun h => h2 h.symm, fun h => h3 h.symm, fun h => h4 h.symm⟩

theorem escapeChar_amp (c : Char) (i : Nat) (h : (escapeChar c)[i]? = some '&') :
    i = 0 ∧ escapeChar c ∈ entities := by
  unfold escapeChar at h ⊢
  split_ifs at h ⊢ with h1 h2 h3 h4
  · rcases i with _ | _ | _ | _ | _ | _ <;> simp_all [entities, lit]
  · rcases i with _ | _ | _ | _ | _ <;> simp_all [entities, lit]
  · rcases i with _ | _ | _ | _ | _ <;> simp_all [entities, lit]
  · rcases i with _ | _ | _ | _ | _ | _ | _ <;> simp_all [entities, lit]
  · rcases i with _ | _ <;> simp_all

theorem safeHTML_cons (c : Char) (s : Str) : safeHTML (c :: s) = escapeChar c ++ safeHTML s := by
  simp [safeHTML]

theorem safeHTML_amp (s : Str) (i : Nat) (h : (safeHTML s)[i]? = some '&') :
    ∃ e ∈ entities, e <+: (safeHTML s).drop i := by
  induction s generalizing i with
  | nil => simp [safeHTML] at h
  | cons c s ih =>
    rw [safeHTML_cons] at h ⊢
    by_cases hi : i < (escapeChar c).length
    · rw [List.getElem?_append_left hi] at h
      obtain ⟨h0, he⟩ := escapeChar_amp c i h
      subst h0
      exact ⟨escapeChar c, he, by simp⟩
    · have hle : (escapeChar c).length ≤ i := Nat.le_of_not_lt hi
      rw [List.getElem?_append_right hle] at h
      obtain ⟨e, he, hp⟩ := ih _ h
      refine ⟨e, he, ?_⟩
      have : (escapeChar c ++ safeHTML s).drop i = (safeHTML s).drop (i - (escapeChar c).length) := by
        rw [List.drop_append_eq_append_drop, List.drop_of_length_le hle]
        simp
      rw [this]
      exact hp

/-- C1: for every string `s`, `safeHTML(s)` contains no `<`, no `>` and no `"`,
and every `&` in it starts one of the entities `&amp;`, `&lt;`, `&gt;`, `&quot;`. -/
theorem safeHTML_no_raw_specials (s : Str) :
    '<' ∉ safeHTML s ∧ '>' ∉ safeHTML s ∧ '"' ∉ safeHTML s ∧
    ∀ i, (safeHTML s)[i]? = some '&' → ∃ e ∈ entities, e <+: (safeHTML s).drop i := by
  refine ⟨?_, ?_, ?_, fun i h => safeHTML_amp s i h⟩
  · intro h
    obtain ⟨c, _, hc⟩ := List.mem_flatMap.mp h
    exact (escapeChar_clean c).1 hc
  · intro h
    obtain ⟨c, _, hc⟩ := List.mem_flatMap.mp h
    exact (escapeChar_clean c).2.1 hc
  · intro h
    obtain ⟨c, _, hc⟩ := List.mem_flatMap.mp h
    exact (escapeChar_clean c).2.2 hc

/-! ## Link normalization -/


theorem toNat_ofNat_small (n : Nat) (h : n < 55296) : (Char.ofNat n).toNat = n := by
  unfold Char.ofNat
  have hv : n.isValidChar := Or.inl h
  rw [dif_pos hv]
  simp [Char.ofNatAux, Char.toNat, UInt32.toNat]

/-- Only a character that is not a lower-case letter is its own sole preimage
under `Char.toLower`. -/
theorem toLower_eq_symbol (c d : Char) (hd : ¬ (97 ≤ d.toNat ∧ d.toNat ≤ 122))
    (h : c.toLower = d) : c = d := by
  unfold Char.toLower at h
  simp only at h
  split_ifs at h with hc
  · exfalso
    apply hd
    rw [← h, toNat_ofNat_small _ (by omega)]
    omega
  · exact h

theorem prefix_sep_unique (x : Char) (a b l : Str) (ha : a ++ [x] <+: l) (hb : b ++ [x] <+: l)
    (hxa : x ∉ a) (hxb : x ∉ b) : a = b := by
  induction a generalizing b l with
  | nil =>
    cases b with
    | nil => rfl
    | cons y b =>
      cases l with
      | nil => simp at ha
      | cons z l =>
        simp only [List.nil_append, List.cons_append, List.cons_prefix_cons] at ha hb
        exact absurd (by rw [hb.1, ← ha.1]; exact List.mem_cons_self _ _) hxb
  | cons a0 a ih =>
    cases l with
    | nil => simp at ha
    | cons z l =>
      cases b with
      | nil =>
        simp only [List.nil_append, List.cons_append, List.cons_prefix_cons] at ha hb
        exact absurd (by rw [hb.1, ← ha.1]; exact List.mem_cons_self _ _) hxa
      | cons b0 b =>
        simp only [List.cons_append, List.cons_prefix_cons] at ha hb
        have hab : a = b := ih b l ha.2 hb.2 (fun h => hxa (List.mem_cons_of_mem _ h))
          (fun h => hxb (List.mem_cons_of_mem _ h))
        rw [ha.1, hb.1, hab]

theorem startsWithCI_iff (p s : Str) : startsWithCI p s = true ↔ p <+: s.map Char.toLower := by
  unfold startsWithCI
  exact List.isPrefixOf_iff_prefix

/-- A subject matching `/^\/\//i` starts with a slash. -/
theorem isRooted_of_double_slash (s : Str) (h : startsWithCI (lit "//") s = true) :
    isRooted s = true := by
  rw [startsWithCI_iff] at h
  unfold isRooted
  rw [List.isPrefixOf_iff_prefix]
  cases s with
  | nil => simp [lit] at h
  | cons c s =>
    have h1 : c.toLower = '/' := by
      have : lit "//" = '/' :: ['/'] := rfl
      rw [this, List.map_cons, List.cons_prefix_cons] at h
      exact h.1.symm
    have hc : c = '/' := toLower_eq_symbol c '/' (by decide) h1
    subst hc
    exact ⟨s, rfl⟩

theorem normalizeHref_eq (h : Str) (hne : h ≠ []) :
    normalizeHref h =
      if passesThrough (trim h) = true then trim h else '/' :: stripLeadingSlashes (trim h) := by
  unfold normalizeHref passesThrough
  rw [if_neg hne]
  simp only [Bool.or_eq_true]
  split_ifs <;> simp_all

/-- C2 (amended): for every non-empty string `h`, with `t` the string `h`
trimmed of leading and trailing white space: if `t` begins with `#`, or up to
case with `http:`, `https:`, `mailto:` or `tel:`, or with `//`, or with `/`,
then `normalizeHref(h)` is `t`; otherwise it is `/` followed by `t` with its
leading slashes stripped. In particular `about` gives `/about`, and `/about`,
`#top` and `https://x.com` come back unchanged. -/
theorem normalizeHref_on_trimmed (h : Str) (hne : h ≠ []) :
    (passesThrough (trim h) = true → normalizeHref h = trim h) ∧
    (passesThrough (trim h) = false →
      normalizeHref h = '/' :: stripLeadingSlashes (trim h)) ∧
    normalizeHref (lit "about") = lit "/about" ∧
    normalizeHref (lit "/about") = lit "/about" ∧
    normalizeHref (lit "#top") = lit "#top" ∧
    normalizeHref (lit "https://x.com") = lit "https://x.com" := by
  refine ⟨fun hp => ?_, fun hp => ?_, by decide, by decide, by decide, by decide⟩
  · rw [normalizeHref_eq h hne, if_pos hp]
  · rw [normalizeHref_eq h hne, if_neg (by simp [hp])]

/-- C2 (witness): the amended statement at `" about "`, a relative link with
white space around it. -/
theorem normalizeHref_on_trimmed_witness :
    lit " about " ≠ [] ∧
    ((passesThrough (trim (lit " about ")) = true →
        normalizeHref (lit " about ") = trim (lit " about ")) ∧
      (passesThrough (trim (lit " about ")) = false →
        normalizeHref (lit " about ") = '/' :: stripLeadingSlashes (trim (lit " about "))) ∧
      normalizeHref (lit "about") = lit "/about" ∧
      normalizeHref (lit "/about") = lit "/about" ∧
      normalizeHref (lit "#top") = lit "#top" ∧
      normalizeHref (lit "https://x.com") = lit "https://x.com") :=
  ⟨by decide, normalizeHref_on_trimmed (lit " about ") (by decide)⟩

/-- C2 (counterexample): `"#top "` begins with `#` and is not returned
unchanged, and `" about"` begins with none of the listed prefixes and does not
come back as `/` followed by itself. -/
theorem normalizeHref_not_verbatim :
    (lit "#top " ≠ [] ∧ passesThrough (lit "#top ") = true ∧
      normalizeHref (lit "#top ") ≠ lit "#top ") ∧
    (lit " about" ≠ [] ∧ passesThrough (lit " about") = false ∧
      normalizeHref (lit " about") ≠ '/' :: stripLeadingSlashes (lit " about")) := by
  decide

theorem normalizeHref_cases (h : Str) (hne : h ≠ []) :
    isFragment (normalizeHref h) = true ∨ isRooted (normalizeHref h) = true ∨
    startsWithCI (lit "http:") (normalizeHref h) = true ∨
    startsWithCI (lit "https:") (normalizeHref h) = true ∨
    startsWithCI (lit "mailto:") (normalizeHref h) = true ∨
    startsWithCI (lit "tel:") (normalizeHref h) = true := by
  rw [normalizeHref_eq h hne]
  by_cases hp : passesThrough (trim h) = true
  · rw [if_pos hp]
    unfold passesThrough isAbsolute at hp
    simp only [Bool.or_eq_true] at hp
    rcases hp with (hf | (((h1 | h2) | h3) | h4) | h5) | hr
    · exact Or.inl hf
    · exact Or.inr (Or.inr (Or.inl h1))
    · exact Or.inr (Or.inr (Or.inr (Or.inl h2)))
    · exact Or.inr (Or.inr (Or.inr (Or.inr (Or.inl h3))))
    · exact Or.inr (Or.inr (Or.inr (Or.inr (Or.inr h4))))
    · exact Or.inr (Or.inl (isRooted_of_double_slash _ h5))
    · exact Or.inr (Or.inl hr)
  · rw [if_neg hp]
    exact Or.inr (Or.inl (by simp [isRooted]))

theorem schemeName_lower (name : Str) (hn : isSchemeName name = true) :
    ':' ∉ name.map Char.toLower ∧
    ∃ c cs, name = c :: cs ∧ c.isAlpha = true := by
  cases name with
  | nil => simp [isSchemeName] at hn
  | cons c cs =>
    simp only [isSchemeName, Bool.and_eq_true, List.all_eq_true] at hn
    refine ⟨?_, c, cs, rfl, hn.1⟩
    intro hmem
    obtain ⟨d, hd, hdl⟩ := List.mem_map.mp hmem
    have hdc : d = ':' := toLower_eq_symbol d ':' (by decide) hdl
    subst hdc
    rcases List.mem_cons.mp hd with h0 | h0
    · rw [← h0] at hn
      exact absurd hn.1 (by decide)
    · exact absurd (hn.2 _ h0) (by decide)

theorem scheme_of_prefix (name known r : Str) (hn : isSchemeName name = true)
    (hk : ':' ∉ known) (hr : startsWithCI (known ++ [':']) r = true)
    (hs : beginsWithScheme name r = true) : name.map Char.toLower = known := by
  rw [startsWithCI_iff] at hr
  unfold beginsWithScheme at hs
  rw [List.isPrefixOf_iff_prefix] at hs
  exact prefix_sep_unique ':' _ _ _ hs hr (schemeName_lower name hn).1 hk

theorem no_scheme_of_symbol (name r : Str) (d : Char) (hd : d.isAlpha = false)
    (hd2 : ¬ (97 ≤ d.toNat ∧ d.toNat ≤ 122))
    (hn : isSchemeName name = true) (hr : [d] <+: r.map Char.toLower) :
    beginsWithScheme name r = false := by
  obtain ⟨_, c, cs, hname, hc⟩ := schemeName_lower name hn
  subst hname
  cases hb : beginsWithScheme (c :: cs) r with
  | false => rfl
  | true =>
    exfalso
    unfold beginsWithScheme at hb
    rw [List.isPrefixOf_iff_prefix] at hb
    cases hm : r.map Char.toLower with
    | nil => rw [hm] at hr; simp at hr
    | cons z l =>
      rw [hm] at hr hb
      simp only [List.map_cons, List.cons_append, List.cons_prefix_cons] at hr hb
      have hcd : c.toLower = d := by rw [hb.1, ← hr.1]
      have := toLower_eq_symbol c d hd2 hcd
      rw [this, hd] at hc
      exact absurd hc (by decide)

/-- C10: for every non-empty string `h`, `normalizeHref(h)` begins with `#`,
with `/`, or up to case with one of `http:`, `https:`, `mailto:`, `tel:`;
consequently, if it begins with any URL scheme at all, that scheme is one of
these four, so never `javascript:` or `data:`. -/
theorem normalizeHref_safe_start (h : Str) (hne : h ≠ []) :
    (isFragment (normalizeHref h) = true ∨ isRooted (normalizeHref h) = true ∨
      startsWithCI (lit "http:") (normalizeHref h) = true ∨
      startsWithCI (lit "https:") (normalizeHref h) = true ∨
      startsWithCI (lit "mailto:") (normalizeHref h) = true ∨
      startsWithCI (lit "tel:") (normalizeHref h) = true) ∧
    (∀ name, isSchemeName name = true → beginsWithScheme name (normalizeHref h) = true →
      name.map Char.toLower ∈ [lit "http", lit "https", lit "mailto", lit "tel"]) ∧
    beginsWithScheme (lit "javascript") (normalizeHref h) = false ∧
    beginsWithScheme (lit "data") (normalizeHref h) = false := by
  have key : ∀ name, isSchemeName name = true →
      beginsWithScheme name (normalizeHref h) = true →
      name.map Char.toLower ∈ [lit "http", lit "https", lit "mailto", lit "tel"] := by
    intro name hn hs
    rcases normalizeHref_cases h hne with hf | hr | h1 | h2 | h3 | h4
    · have := no_scheme_of_symbol name _ '#' (by decide) (by decide) hn
        ((startsWithCI_iff _ _).mp hf)
      rw [this] at hs
      exact absurd hs (by decide)
    · have hr2 : ['/'] <+: (normalizeHref h).map Char.toLower := by
        unfold isRooted at hr
        rw [List.isPrefixOf_iff_prefix] at hr
        obtain ⟨t, ht⟩ := hr
        rw [← ht]
        exact ⟨t.map Char.toLower, by simp [lit]⟩
      have := no_scheme_of_symbol name _ '/' (by decide) (by decide) hn hr2
      rw [this] at hs
      exact absurd hs (by decide)
    · have := scheme_of_prefix name (lit "http") _ hn (by decide) h1 hs
      simp [this]
    · have := scheme_of_prefix name (lit "https") _ hn (by decide) h2 hs
      simp [this]
    · have := scheme_of_prefix name (lit "mailto") _ hn (by decide) h3 hs
      simp [this]
    · have := scheme_of_prefix name (lit "tel") _ hn (by decide) h4 hs
      simp [this]
  refine ⟨normalizeHref_cases h hne, key, ?_, ?_⟩
  · cases hb : beginsWithScheme (lit "javascript") (normalizeHref h) with
    | false => rfl
    | true => exact absurd (key _ (by decide) hb) (by decide)
  · cases hb : beginsWithScheme (lit "data") (normalizeHref h) with
    | false => rfl
    | true => exact absurd (key _ (by decide) hb) (by decide)

/-- C10 (witness): the statement at `javascript:alert(1)`. -/
theorem normalizeHref_safe_start_witness :
    lit "javascript:alert(1)" ≠ [] ∧
    beginsWithScheme (lit "javascript") (normalizeHref (lit "javascript:alert(1)")) = false :=
  ⟨by decide, (normalizeHref_safe_start (lit "javascript:alert(1)") (by decide)).2.2.1⟩

/-! ## Sorting and slicing -/


theorem insertBy_perm {α : Type} (cmp : α → α → Int) (a : α) (l : List α) :
    (insertBy cmp a l).Perm (a :: l) := by
  induction l with
  | nil => exact List.Perm.refl _
  | cons b l ih =>
    unfold insertBy
    split_ifs
    · exact List.Perm.refl _
    · exact (List.Perm.cons b ih).trans (List.Perm.swap a b l)

theorem sortBy_perm {α : Type} (cmp : α → α → Int) (l : List α) : (sortBy cmp l).Perm l := by
  induction l with
  | nil => exact List.Perm.refl _
  | cons a l ih =>
    unfold sortBy
    exact (insertBy_perm cmp a _).trans (List.Perm.cons a ih)

theorem sortBy_length {α : Type} (cmp : α → α → Int) (l : List α) :
    (sortBy cmp l).length = l.length :=
  (sortBy_perm cmp l).length_eq

theorem insertBy_pairwise {α : Type} (cmp : α → α → Int) (key : α → Int)
    (hc : ∀ a b, cmp a b ≤ 0 ↔ key a ≤ key b) (a : α) (l : List α)
    (hl : l.Pairwise (fun x y => key x ≤ key y)) :
    (insertBy cmp a l).Pairwise (fun x y => key x ≤ key y) := by
  induction l with
  | nil => simp [insertBy]
  | cons b l ih =>
    rw [List.pairwise_cons] at hl
    unfold insertBy
    split_ifs with hab
    · rw [List.pairwise_cons]
      refine ⟨?_, List.pairwise_cons.mpr hl⟩
      intro x hx
      have hab2 := (hc a b).mp hab
      rcases List.mem_cons.mp hx with rfl | hx
      · exact hab2
      · exact le_trans hab2 (hl.1 x hx)
    · rw [List.pairwise_cons]
      refine ⟨?_, ih hl.2⟩
      intro x hx
      rcases List.mem_cons.mp ((insertBy_perm cmp a l).mem_iff.mp hx) with rfl | hx
      · have : ¬ key x ≤ key b := fun h => hab ((hc x b).mpr h)
        omega
      · exact hl.1 x hx

/-- Sorting with a comparator that orders by a key gives a list ascending in
that key. -/
theorem sortBy_pairwise {α : Type} (cmp : α → α → Int) (key : α → Int)
    (hc : ∀ a b, cmp a b ≤ 0 ↔ key a ≤ key b) (l : List α) :
    (sortBy cmp l).Pairwise (fun x y => key x ≤ key y) := by
  induction l with
  | nil => simp [sortBy]
  | cons a l ih =>
    unfold sortBy
    exact insertBy_pairwise cmp key hc a _ ih

theorem slice0_sublist {α : Type} (xs : List α) (e : Int) : (slice0 xs e).Sublist xs := by
  unfold slice0
  split_ifs <;> exact List.take_sublist _ _

theorem slice0_all {α : Type} (xs : List α) (n : Nat) (h : xs.length ≤ n) :
    slice0 xs (limitOr none n) = xs := by
  simp only [slice0, limitOr]
  rw [if_neg (by omega)]
  exact List.take_of_length_le (by simpa using h)

theorem slice0_zero {α : Type} (xs : List α) (n : Nat) :
    slice0 xs (limitOr (some 0) n) = slice0 xs (limitOr none n) := by
  simp [limitOr]

theorem slice0_limit {α : Type} (xs : List α) (n : Nat) (N : Int) (hN : 1 ≤ N) :
    slice0 xs (limitOr (some N) n) = xs.take N.toNat := by
  simp only [slice0, limitOr]
  rw [if_neg (by omega), if_neg (by omega)]

theorem eventsItems_eq (now : Int) (list : List Event) :
    eventsItems now list none =
      if (sortBy (fun a b => a.date - b.date) list).filter
          (fun e => decide (e.date ≥ now - 86400000)) = []
      then sortBy (fun a b => a.date - b.date) list
      else (sortBy (fun a b => a.date - b.date) list).filter
          (fun e => decide (e.date ≥ now - 86400000)) := by
  unfold eventsItems
  simp only
  split_ifs with h1 h2 h2
  · rw [h2] at h1
    simp at h1
  · exact slice0_all _ _ (List.length_filter_le _ _)
  · exact slice0_all _ _ (le_refl _)
  · exact absurd (List.length_eq_zero.mp (not_not.mp h1)) h2

/-! ## Renderers -/


/-- C3 (amended): without a limit, `renderEvents` renders, in ascending date
order, exactly the events whose date is no earlier than 24 hours before `now`
whenever there is such an event, and all events of the list in ascending date
order when every event is earlier than that. -/
theorem renderEvents_day_window (env : Env) (list : List Event) :
    (eventsItems env.now list none).Pairwise (fun a b => a.date ≤ b.date) ∧
    ((∃ e ∈ list, env.now - 86400000 ≤ e.date) →
      (eventsItems env.now list none).Perm
        (list.filter (fun e => decide (e.date ≥ env.now - 86400000)))) ∧
    ((∀ e ∈ list, e.date < env.now - 86400000) →
      (eventsItems env.now list none).Perm list) ∧
    renderEvents env list none =
      joinAll ((eventsItems env.now list none).map (eventCard env)) := by
  have hs : (sortBy (fun a b : Event => a.date - b.date) list).Pairwise
      (fun a b => a.date ≤ b.date) :=
    sortBy_pairwise _ (fun e => e.date)
      (fun a b => by show a.date - b.date ≤ 0 ↔ a.date ≤ b.date; omega) list
  have hp := sortBy_perm (fun a b : Event => a.date - b.date) list
  refine ⟨?_, ?_, ?_, rfl⟩
  · rw [eventsItems_eq]
    split_ifs
    · exact hs
    · exact hs.sublist (List.filter_sublist _)
  · rintro ⟨e, he, hd⟩
    rw [eventsItems_eq]
    have hne : (sortBy (fun a b : Event => a.date - b.date) list).filter
        (fun e => decide (e.date ≥ env.now - 86400000)) ≠ [] := by
      intro h0
      have hmem : e ∈ (sortBy (fun a b : Event => a.date - b.date) list).filter
          (fun e => decide (e.date ≥ env.now - 86400000)) :=
        List.mem_filter.mpr ⟨hp.mem_iff.mpr he, by simpa using hd⟩
      rw [h0] at hmem
      exact List.not_mem_nil _ hmem
    rw [if_neg hne]
    exact hp.filter _
  · intro hall
    rw [eventsItems_eq]
    have h0 : (sortBy (fun a b : Event => a.date - b.date) list).filter
        (fun e => decide (e.date ≥ env.now - 86400000)) = [] := by
      rw [List.filter_eq_nil_iff]
      intro e he
      have := hall e (hp.mem_iff.mp he)
      simp only [ge_iff_le, decide_eq_true_eq, not_le]
      exact this
    rw [if_pos h0]
    exact hp

/-- C3 (counterexample): the rule "exactly the events dated today or later"
fails. On the UTC clock at 1970-01-02T00:00:00Z, with events dated 1970-01-01
and 1970-01-02, the event of the day before is rendered as well. On the New
Zealand clock (UTC+12) at 1970-01-03 01:00 local time, with events dated
1970-01-02 and 1970-01-03, the event of the day before is rendered as well. -/
theorem renderEvents_not_today_rule :
    (eventsItems 86400000 [eventOn 0 (lit "a"), eventOn 86400000 (lit "b")] none =
        [eventOn 0 (lit "a"), eventOn 86400000 (lit "b")] ∧
      datedTodayOrLater 0 86400000 (eventOn 0 (lit "a")) = false ∧
      ¬ todayRule 0 86400000 [eventOn 0 (lit "a"), eventOn 86400000 (lit "b")]) ∧
    (eventsItems 133200000 [eventOn 86400000 (lit "a"), eventOn 172800000 (lit "b")] none =
        [eventOn 86400000 (lit "a"), eventOn 172800000 (lit "b")] ∧
      datedTodayOrLater 43200000 133200000 (eventOn 86400000 (lit "a")) = false ∧
      ¬ todayRule 43200000 133200000
        [eventOn 86400000 (lit "a"), eventOn 172800000 (lit "b")]) := by
  refine ⟨⟨by decide, by decide, ?_⟩, ⟨by decide, by decide, ?_⟩⟩
  · rintro ⟨_, h2, _⟩
    have hperm := h2 ⟨eventOn 86400000 (lit "b"), by simp, by decide⟩
    have hlen := hperm.length_eq
    revert hlen
    decide
  · rintro ⟨_, h2, _⟩
    have hperm := h2 ⟨eventOn 172800000 (lit "b"), by simp, by decide⟩
    have hlen := hperm.length_eq
    revert hlen
    decide

theorem slice0_map {α β : Type} (f : α → β) (xs : List α) (e : Int) :
    (slice0 xs e).map f = slice0 (xs.map f) e := by
  unfold slice0
  split_ifs <;> simp [List.map_take]

theorem sorted_keys_eq (l1 l2 : List Int) (hp : l1.Perm l2)
    (h1 : l1.Pairwise (fun a b => a ≥ b)) (h2 : l2.Pairwise (fun a b => a ≥ b)) : l1 = l2 :=
  List.eq_of_perm_of_sorted hp h1 h2

theorem sortBy_desc {α : Type} (key : α → Int) (l : List α) :
    (sortBy (fun a b => key b - key a) l).Pairwise (fun a b => key a ≥ key b) := by
  have h := sortBy_pairwise (fun a b => key b - key a) (fun a => - key a)
    (fun a b => by show key b - key a ≤ 0 ↔ - key a ≤ - key b; omega) l
  refine List.Pairwise.imp (fun {a b} hab => ?_) h
  have hab2 : - key a ≤ - key b := hab
  show key b ≤ key a
  omega

theorem sortBy_desc_keys {α : Type} (key : α → Int) (l l2 : List α) (hp : l2.Perm l) :
    (sortBy (fun a b => key b - key a) l2).map key =
      (sortBy (fun a b => key b - key a) l).map key := by
  apply sorted_keys_eq
  · exact (((sortBy_perm _ l2).trans hp).trans (sortBy_perm _ l).symm).map key
  · exact (List.pairwise_map.mpr (sortBy_desc key l2))
  · exact (List.pairwise_map.mpr (sortBy_desc key l))

/-- C4 (amended): for every list of announcements with valid dates and every
permutation of it, the cards of `renderAnnouncements` are in descending date
order, ties allowed (each card's date is later than or equal to the next
card's), and the sequence of dates is the same for every permutation; likewise
for winners whose years are numbers or absent, an absent year counting as `0`. -/
theorem render_descending (env : Env) (limit : Option Int)
    (la la2 : List Announcement) (lw lw2 : List Winner)
    (ha : la2.Perm la) (hw : lw2.Perm lw) :
    (announcementsItems la2 limit).Pairwise (fun a b => a.date ≥ b.date) ∧
    (announcementsItems la2 limit).map (fun a => a.date) =
      (announcementsItems la limit).map (fun a => a.date) ∧
    renderAnnouncements env la2 limit =
      joinAll ((announcementsItems la2 limit).map (announcementCard env)) ∧
    (winnersItems lw2 limit).Pairwise (fun a b => a.year ≥ b.year) ∧
    (winnersItems lw2 limit).map (fun w => w.year) =
      (winnersItems lw limit).map (fun w => w.year) ∧
    renderWinners lw2 limit = joinAll ((winnersItems lw2 limit).map winnerCard) := by
  refine ⟨?_, ?_, rfl, ?_, ?_, rfl⟩
  · exact (sortBy_desc (fun a : Announcement => a.date) la2).sublist (slice0_sublist _ _)
  · unfold announcementsItems
    simp only [slice0_map, sortBy_length]
    rw [sortBy_desc_keys (fun a : Announcement => a.date) la la2 ha, ha.length_eq]
  · exact (sortBy_desc (fun w : Winner => w.year) lw2).sublist (slice0_sublist _ _)
  · unfold winnersItems
    simp only [slice0_map, sortBy_length]
    rw [sortBy_desc_keys (fun w : Winner => w.year) lw lw2 hw, hw.length_eq]

/-- C4 (witness): two announcements and two winners, each list against its
swap. -/
theorem render_descending_witness :
    ([announcementOn 5 (lit "x"), announcementOn 9 (lit "y")].Perm
        [announcementOn 9 (lit "y"), announcementOn 5 (lit "x")] ∧
      [winnerIn 2023 (lit "x"), winnerIn 2024 (lit "y")].Perm
        [winnerIn 2024 (lit "y"), winnerIn 2023 (lit "x")]) ∧
    (announcementsItems [announcementOn 5 (lit "x"), announcementOn 9 (lit "y")] none).Pairwise
      (fun a b => a.date ≥ b.date) :=
  ⟨⟨List.Perm.swap _ _ _, List.Perm.swap _ _ _⟩,
    (render_descending Env.blank none
      [announcementOn 9 (lit "y"), announcementOn 5 (lit "x")]
      [announcementOn 5 (lit "x"), announcementOn 9 (lit "y")]
      [winnerIn 2024 (lit "y"), winnerIn 2023 (lit "x")]
      [winnerIn 2023 (lit "x"), winnerIn 2024 (lit "y")]
      (List.Perm.swap _ _ _) (List.Perm.swap _ _ _)).1⟩

/-- C4 (counterexample): two announcements of the same date, and two winners of
the same year, are not rendered in strictly descending order. -/
theorem render_not_strictly_descending :
    ¬ (announcementsItems [announcementOn 5 (lit "x"), announcementOn 5 (lit "y")] none).Pairwise
      (fun a b => a.date > b.date) ∧
    ¬ (winnersItems [winnerIn 2024 (lit "x"), winnerIn 2024 (lit "y")] none).Pairwise
      (fun a b => a.year > b.year) := by
  decide

/-! ## Limits and empty lists -/


theorem eventsItems_limit (now : Int) (list : List Event) (N : Int) (hN : 1 ≤ N) :
    eventsItems now list (some N) = (eventsItems now list none).take N.toNat := by
  unfold eventsItems
  simp only
  split_ifs
  · rw [slice0_limit _ _ N hN, slice0_all _ _ (List.length_filter_le _ _)]
  · rw [slice0_limit _ _ N hN, slice0_all _ _ (le_refl _)]

theorem eventsItems_zero (now : Int) (list : List Event) :
    eventsItems now list (some 0) = eventsItems now list none := by
  unfold eventsItems
  simp only [slice0_zero]

theorem sliced_limit {α : Type} (xs : List α) (N : Int) (hN : 1 ≤ N) :
    slice0 xs (limitOr (some N) xs.length) = (slice0 xs (limitOr none xs.length)).take N.toNat := by
  rw [slice0_limit _ _ N hN, slice0_all _ _ (le_refl _)]

/-- C5 (amended): for the five renderers that take a limit (events,
announcements, projects, prizes, winners), every input list and every integer
limit `N >= 1`, the output consists of exactly the first `N` of the items the
renderer outputs without a limit, `min(N, m)` items in all; the limit `0` is
treated as no limit; `renderMembers` and `renderResources` take no limit and
render every item whatever limit is passed. -/
theorem limit_takes_first (env : Env) (N : Int) (hN : 1 ≤ N) (le : List Event)
    (la : List Announcement) (lp : List Project) (lz : List Prize) (lw : List Winner)
    (lm : List Member) (lr : List Resource) :
    (eventsItems env.now le (some N) = (eventsItems env.now le none).take N.toNat ∧
      announcementsItems la (some N) = (announcementsItems la none).take N.toNat ∧
      projectsItems lp (some N) = (projectsItems lp none).take N.toNat ∧
      prizesItems lz (some N) = (prizesItems lz none).take N.toNat ∧
      winnersItems lw (some N) = (winnersItems lw none).take N.toNat) ∧
    ((eventsItems env.now le (some N)).length = min N.toNat (eventsItems env.now le none).length ∧
      (announcementsItems la (some N)).length = min N.toNat (announcementsItems la none).length ∧
      (projectsItems lp (some N)).length = min N.toNat (projectsItems lp none).length ∧
      (prizesItems lz (some N)).length = min N.toNat (prizesItems lz none).length ∧
      (winnersItems lw (some N)).length = min N.toNat (winnersItems lw none).length) ∧
    (render env .events le (some N) =
        joinAll (((eventsItems env.now le none).take N.toNat).map (eventCard env)) ∧
      render env .announcements la (some N) =
        joinAll (((announcementsItems la none).take N.toNat).map (announcementCard env)) ∧
      render env .projects lp (some N) =
        joinAll (((projectsItems lp none).take N.toNat).map projectCard) ∧
      render env .prizes lz (some N) =
        joinAll (((prizesItems lz none).take N.toNat).map prizeCard) ∧
      render env .winners lw (some N) =
        joinAll (((winnersItems lw none).take N.toNat).map winnerCard)) ∧
    (render env .events le (some 0) = render env .events le none ∧
      render env .announcements la (some 0) = render env .announcements la none ∧
      render env .projects lp (some 0) = render env .projects lp none ∧
      render env .prizes lz (some 0) = render env .prizes lz none ∧
      render env .winners lw (some 0) = render env .winners lw none) ∧
    (render env .members lm (some N) = joinAll (lm.map memberCard) ∧
      render env .resources lr (some N) = render env .resources lr none) := by
  have h1 := eventsItems_limit env.now le N hN
  have h2 : announcementsItems la (some N) = (announcementsItems la none).take N.toNat :=
    sliced_limit _ N hN
  have h3 : projectsItems lp (some N) = (projectsItems lp none).take N.toNat :=
    sliced_limit _ N hN
  have h4 : prizesItems lz (some N) = (prizesItems lz none).take N.toNat :=
    sliced_limit _ N hN
  have h5 : winnersItems lw (some N) = (winnersItems lw none).take N.toNat :=
    sliced_limit _ N hN
  refine ⟨⟨h1, h2, h3, h4, h5⟩, ⟨?_, ?_, ?_, ?_, ?_⟩, ⟨?_, ?_, ?_, ?_, ?_⟩,
    ⟨?_, ?_, ?_, ?_, ?_⟩, ⟨rfl, rfl⟩⟩
  · rw [h1, List.length_take]
  · rw [h2, List.length_take]
  · rw [h3, List.length_take]
  · rw [h4, List.length_take]
  · rw [h5, List.length_take]
  · show renderEvents env le (some N) = _
    unfold renderEvents
    rw [h1]
  · show renderAnnouncements env la (some N) = _
    unfold renderAnnouncements
    rw [h2]
  · show renderProjects lp (some N) = _
    unfold renderProjects
    rw [h3]
  · show renderPrizes lz (some N) = _
    unfold renderPrizes
    rw [h4]
  · show renderWinners lw (some N) = _
    unfold renderWinners
    rw [h5]
  · show renderEvents env le (some 0) = renderEvents env le none
    unfold renderEvents
    rw [eventsItems_zero]
  · show renderAnnouncements env la (some 0) = renderAnnouncements env la none
    unfold renderAnnouncements announcementsItems
    simp only [slice0_zero]
  · show renderProjects lp (some 0) = renderProjects lp none
    unfold renderProjects projectsItems
    simp only [slice0_zero]
  · show renderPrizes lz (some 0) = renderPrizes lz none
    unfold renderPrizes prizesItems
    simp only [slice0_zero]
  · show renderWinners lw (some 0) = renderWinners lw none
    unfold renderWinners winnersItems
    simp only [slice0_zero]

/-- C5 (witness): the limit `1` on two projects keeps the first one. -/
theorem limit_takes_first_witness :
    (1 : Int) ≤ 1 ∧
    projectsItems [projectBy (lit "a") [] [], projectBy (lit "b") [] []] (some 1) =
      (projectsItems [projectBy (lit "a") [] [], projectBy (lit "b") [] []] none).take
        (1 : Int).toNat :=
  ⟨by decide,
    (limit_takes_first Env.blank 1 (by decide) [] []
      [projectBy (lit "a") [] [], projectBy (lit "b") [] []] [] [] [] []).1.2.2.1⟩

/-- C5 (counterexample): with the limit `0` `renderProjects` outputs both of two
projects, not the first `0` of them, and with the limit `1` the registered
members renderer outputs both of two members, not the first one. -/
theorem limit_zero_and_members_unlimited :
    (projectsItems [projectBy (lit "a") [] [], projectBy (lit "b") [] []] (some 0)).length = 2 ∧
    projectsItems [projectBy (lit "a") [] [], projectBy (lit "b") [] []] (some 0) ≠
      (projectsItems [projectBy (lit "a") [] [], projectBy (lit "b") [] []] none).take 0 ∧
    render Env.blank .members [memberNamed (lit "a"), memberNamed (lit "b")] (some 1) ≠
      joinAll (([memberNamed (lit "a"), memberNamed (lit "b")].take 1).map memberCard) := by
  refine ⟨by decide, by decide, ?_⟩
  intro h
  have h2 : memberCard (memberNamed (lit "a")) ++ (memberCard (memberNamed (lit "b")) ++ []) =
      memberCard (memberNamed (lit "a")) ++ [] := h
  have h3 := List.append_cancel_left h2
  revert h3
  decide

theorem slice0_nil {α : Type} (e : Int) : slice0 ([] : List α) e = [] := by
  simp [slice0]

/-- C8 (amended): for the six renderers other than `renderResources`, rendering
the empty list, with or without a limit, returns the empty string;
`renderResources` of the empty list returns the table markup with an empty
body. -/
theorem render_empty (env : Env) (limit : Option Int) :
    render env .events [] limit = [] ∧
    render env .announcements [] limit = [] ∧
    render env .projects [] limit = [] ∧
    render env .members [] limit = [] ∧
    render env .prizes [] limit = [] ∧
    render env .winners [] limit = [] ∧
    render env .resources [] limit =
      lit "<div class=\"card\"><div class=\"table-wrap\"><table class=\"table\" aria-describedby=\"resources-desc\"><thead><tr><th>Title</th><th>Type</th><th>Size</th></tr></thead><tbody></tbody></table></div></div>" := by
  refine ⟨?_, ?_, ?_, rfl, ?_, ?_, rfl⟩
  · show renderEvents env [] limit = []
    simp [renderEvents, eventsItems, sortBy, slice0_nil, joinAll]
  · show renderAnnouncements env [] limit = []
    simp [renderAnnouncements, announcementsItems, sortBy, slice0_nil, joinAll]
  · show renderProjects [] limit = []
    simp [renderProjects, projectsItems, slice0_nil, joinAll]
  · show renderPrizes [] limit = []
    simp [renderPrizes, prizesItems, slice0_nil, joinAll]
  · show renderWinners [] limit = []
    simp [renderWinners, winnersItems, sortBy, slice0_nil, joinAll]

/-- C8 (counterexample): the registered resources renderer does not return the
empty string on the empty list, with or without a limit. -/
theorem renderResources_empty_not_blank :
    renderers (lit "resources") = some .resources ∧
    render Env.blank .resources [] none ≠ [] ∧
    render Env.blank .resources [] (some 3) ≠ [] := by
  decide

/-! ## Projects filter -/


theorem includes_iff (hay q : Str) : includes hay q = true ↔ q <:+: hay := by
  unfold includes
  rw [List.any_eq_true, List.infix_iff_prefix_suffix]
  constructor
  · rintro ⟨t, ht, hp⟩
    exact ⟨t, List.isPrefixOf_iff_prefix.mp hp, (List.mem_tails _ _).mp ht⟩
  · rintro ⟨t, hp, ht⟩
    exact ⟨t, (List.mem_tails _ _).mpr ht, List.isPrefixOf_iff_prefix.mpr hp⟩

/-- A string without the separator that occurs in `a ++ s :: r` occurs in `a` or
in `r`. -/
theorem infix_sep_split (s : Char) (q a r : Str) (hs : s ∉ q) (h : q <:+: a ++ s :: r) :
    q <:+: a ∨ q <:+: r := by
  obtain ⟨u, v, huv⟩ := h
  rw [List.append_assoc] at huv
  rcases List.append_eq_append_iff.mp huv with ⟨a', ha, hr⟩ | ⟨c', hu, hq⟩
  · -- `a = u ++ a'` and `q ++ v = a' ++ s :: r`
    rcases List.append_eq_append_iff.mp hr with ⟨d, hd, hv⟩ | ⟨d, hq2, hsr⟩
    · -- `a' = q ++ d`
      left
      exact ⟨u, d, by rw [ha, hd, List.append_assoc]⟩
    · -- `q = a' ++ d` and `s :: r = d ++ v`
      cases d with
      | nil =>
        left
        rw [List.append_nil] at hq2
        exact ⟨u, [], by rw [ha, hq2, List.append_nil]⟩
      | cons d0 d =>
        exfalso
        rw [List.cons_append, List.cons.injEq] at hsr
        apply hs
        rw [hq2, hsr.1]
        exact List.mem_append_right _ (List.mem_cons_self _ _)
  · -- `u = a ++ c'` and `s :: r = c' ++ (q ++ v)`
    cases c' with
    | nil =>
      rw [List.nil_append] at hq
      cases q with
      | nil => left; exact List.nil_infix
      | cons q0 q =>
        exfalso
        rw [List.cons_append, List.cons.injEq] at hq
        apply hs
        rw [hq.1]
        exact List.mem_cons_self _ _
    | cons c0 c' =>
      right
      rw [List.cons_append, List.cons.injEq] at hq
      exact ⟨c', v, by rw [hq.2, List.append_assoc]⟩

theorem infix_joinWith (s : Char) (q : Str) (hs : s ∉ q) (fs : List Str) (hne : fs ≠ [])
    (h : q <:+: joinWith [s] fs) : ∃ f ∈ fs, q <:+: f := by
  induction fs with
  | nil => exact absurd rfl hne
  | cons a fs ih =>
    cases fs with
    | nil => exact ⟨a, List.mem_cons_self _ _, h⟩
    | cons b fs =>
      have h2 : q <:+: a ++ s :: joinWith [s] (b :: fs) := by
        simpa [joinWith] using h
      rcases infix_sep_split s q a _ hs h2 with ha | hr
      · exact ⟨a, List.mem_cons_self _ _, ha⟩
      · obtain ⟨f, hf, hqf⟩ := ih (by simp) hr
        exact ⟨f, List.mem_cons_of_mem _ hf, hqf⟩

theorem mem_infix_joinWith (sep : Str) (fs : List Str) (f : Str) (hf : f ∈ fs) :
    f <:+: joinWith sep fs := by
  induction fs with
  | nil => simp at hf
  | cons a fs ih =>
    cases fs with
    | nil =>
      simp only [List.mem_singleton] at hf
      rw [hf]
      exact List.infix_refl _
    | cons b fs =>
      rcases List.mem_cons.mp hf with rfl | hf
      · exact ⟨[], sep ++ joinWith sep (b :: fs), by simp [joinWith]⟩
      · obtain ⟨u, v, huv⟩ := ih hf
        exact ⟨a ++ sep ++ u, v, by simp [joinWith, ← huv]⟩

theorem lower_joinWith (toLowerCase : Str → Str) (laws : LowerCaseLaws toLowerCase)
    (fs : List Str) (hne : fs ≠ []) :
    toLowerCase (joinWith (lit " ") fs) = joinWith [' '] (fs.map toLowerCase) := by
  induction fs with
  | nil => exact absurd rfl hne
  | cons a fs ih =>
    cases fs with
    | nil => rfl
    | cons b fs =>
      have h1 : joinWith (lit " ") (a :: b :: fs) = a ++ ' ' :: joinWith (lit " ") (b :: fs) := by
        simp [joinWith, lit]
      have h2 : joinWith [' '] ((a :: b :: fs).map toLowerCase) =
          toLowerCase a ++ ' ' :: joinWith [' '] ((b :: fs).map toLowerCase) := by
        simp [joinWith]
      rw [h1, h2, laws.space_join, ih (List.cons_ne_nil _ _)]

theorem haystack_eq (toLowerCase : Str → Str) (laws : LowerCaseLaws toLowerCase) (p : Project) :
    haystack toLowerCase p =
      joinWith [' '] (([p.title, p.student, p.summary] ++ p.category).map toLowerCase) := by
  unfold haystack
  exact lower_joinWith toLowerCase laws _ (by simp)

/-- The filter's test on a record is the occurrence of the query in the text of
the record. -/
theorem includes_haystack (toLowerCase : Str → Str) (q : Str) (p : Project) :
    includes (haystack toLowerCase p) (toLowerCase q) = occursInText toLowerCase q p := rfl

/-- A query that occurs in the summary occurs in the text of the record. -/
theorem occursInText_of_summary (toLowerCase : Str → Str) (laws : LowerCaseLaws toLowerCase)
    (q : Str) (p : Project) (h : occursIn toLowerCase q p.summary = true) :
    occursInText toLowerCase q p = true := by
  rw [← includes_haystack, includes_iff, haystack_eq toLowerCase laws]
  exact List.IsInfix.trans ((includes_iff _ _).mp h)
    (mem_infix_joinWith _ _ _ (List.mem_map_of_mem _ (by simp)))

/-- For a query whose lower-cased form has no space, occurring in the text of a
record is occurring in one of its fields. -/
theorem occursInText_eq_fields (toLowerCase : Str → Str) (laws : LowerCaseLaws toLowerCase)
    (q : Str) (hns : ' ' ∉ toLowerCase q) (p : Project) :
    occursInText toLowerCase q p = occursInRecord toLowerCase q p := by
  rw [← includes_haystack, Bool.eq_iff_iff, includes_iff, haystack_eq toLowerCase laws]
  constructor
  · intro h
    obtain ⟨f, hf, hqf⟩ := infix_joinWith _ _ hns _ (by simp) h
    obtain ⟨g, hg, rfl⟩ := List.mem_map.mp hf
    have hocc : occursIn toLowerCase q g = true := (includes_iff _ _).mpr hqf
    unfold occursInRecord
    simp only [List.mem_append, List.mem_cons, List.mem_singleton, List.not_mem_nil,
      or_false] at hg
    simp only [Bool.or_eq_true, List.any_eq_true]
    rcases hg with (rfl | rfl | rfl) | hg
    · exact Or.inl (Or.inl (Or.inl hocc))
    · exact Or.inl (Or.inl (Or.inr hocc))
    · exact Or.inl (Or.inr hocc)
    · exact Or.inr ⟨g, hg, hocc⟩
  · intro h
    unfold occursInRecord at h
    simp only [Bool.or_eq_true, List.any_eq_true] at h
    have key : ∀ g, g ∈ [p.title, p.student, p.summary] ++ p.category →
        occursIn toLowerCase q g = true →
        toLowerCase q <:+: joinWith [' ']
          (([p.title, p.student, p.summary] ++ p.category).map toLowerCase) := by
      intro g hg hocc
      exact List.IsInfix.trans ((includes_iff _ _).mp hocc)
        (mem_infix_joinWith _ _ _ (List.mem_map_of_mem _ hg))
    rcases h with ((h | h) | h) | ⟨g, hg, h⟩
    · exact key _ (by simp) h
    · exact key _ (by simp) h
    · exact key _ (by simp) h
    · exact key g (List.mem_append_right _ hg) h

theorem asciiLowerCase_laws : LowerCaseLaws asciiLowerCase where
  nonempty := by
    intro s hs
    unfold asciiLowerCase
    simpa using hs
  space_join := by
    intro a b
    unfold asciiLowerCase
    rw [List.map_append, List.map_cons]
    rfl

theorem filter_unique {α : Type} (P : α → Bool) (l : List α) (i : Nat) (hi : i < l.length)
    (hP : P l[i] = true) (hN : ∀ j (hj : j < l.length), j ≠ i → P l[j] = false) :
    l.filter P = [l[i]] := by
  induction l generalizing i with
  | nil => simp at hi
  | cons a l ih =>
    have hrest : ∀ k, (∀ j (hj : j < l.length), j ≠ k → P l[j] = false) →
        k ≥ l.length → l.filter P = [] := by
      intro k hk hge
      rw [List.filter_eq_nil_iff]
      intro x hx
      obtain ⟨j, hj, rfl⟩ := List.getElem_of_mem hx
      rw [hk j hj (by omega)]
      simp
    cases i with
    | zero =>
      simp only [List.getElem_cons_zero] at hP ⊢
      rw [List.filter_cons_of_pos hP]
      have : l.filter P = [] := by
        rw [List.filter_eq_nil_iff]
        intro x hx
        obtain ⟨j, hj, rfl⟩ := List.getElem_of_mem hx
        have := hN (j + 1) (by simp; omega) (by omega)
        simp only [List.getElem_cons_succ] at this
        rw [this]
        simp
      rw [this]
    | succ i =>
      have h0 := hN 0 (by simp) (by omega)
      simp only [List.getElem_cons_zero] at h0
      simp only [List.getElem_cons_succ] at hP ⊢
      rw [List.filter_cons_of_neg (by simp [h0])]
      apply ih i (by simpa using hi) hP
      intro j hj hne
      have := hN (j + 1) (by simp; omega) (by omega)
      simpa using this

/-- C6 (amended): for every project dataset and every non-empty query `q`, with
no category filter and no grade filter set: if the lower-cased `q` is a
substring of the lower-cased summary of one record and is not a substring of
the lower-cased text of any other record, that text being the record's title,
student, summary and category tags joined by single spaces, then `apply()`
yields exactly that record. When the lower-cased `q` has no space, the
condition on another record says that `q` occurs, up to case, in none of its
title, student, summary and category tags. -/
theorem projects_query_unique (toLowerCase : Str → Str) (laws : LowerCaseLaws toLowerCase)
    (data : List Project) (q : Str) (hq : q ≠ []) (i : Nat) (hi : i < data.length)
    (hin : occursIn toLowerCase q (data[i]).summary = true)
    (hout : ∀ j (hj : j < data.length), j ≠ i → occursInText toLowerCase q data[j] = false) :
    ProjectsPage.filtered toLowerCase ⟨data, q, [], []⟩ = [data[i]] ∧
    ProjectsPage.apply toLowerCase ⟨data, q, [], []⟩ = projectCard data[i] ∧
    (' ' ∉ toLowerCase q →
      ∀ p, occursInText toLowerCase q p = occursInRecord toLowerCase q p) := by
  have hlq : toLowerCase q ≠ [] := laws.nonempty q hq
  have hf : ProjectsPage.filtered toLowerCase ⟨data, q, [], []⟩ =
      data.filter (fun p => occursInText toLowerCase q p) := by
    unfold ProjectsPage.filtered
    simp only [hlq, decide_False, Bool.false_or, decide_True, Bool.true_or, Bool.and_true]
    rfl
  have hmain : ProjectsPage.filtered toLowerCase ⟨data, q, [], []⟩ = [data[i]] := by
    rw [hf]
    exact filter_unique _ data i hi (occursInText_of_summary toLowerCase laws q _ hin) hout
  refine ⟨hmain, ?_, fun hns p => occursInText_eq_fields toLowerCase laws q hns p⟩
  unfold ProjectsPage.apply renderProjects projectsItems
  rw [hmain]
  simp [slice0, limitOr, joinAll]

/-- C6 (witness): two projects and the query `Solar Oven`, on ASCII text. -/
theorem projects_query_unique_witness :
    (LowerCaseLaws asciiLowerCase ∧ lit "Solar Oven" ≠ [] ∧
      occursIn asciiLowerCase (lit "Solar Oven") (lit "a solar oven") = true) ∧
    ProjectsPage.filtered asciiLowerCase
      ⟨[projectBy (lit "x") (lit "y") (lit "a solar oven"),
        projectBy (lit "a") (lit "b") (lit "zz")], lit "Solar Oven", [], []⟩ =
      [projectBy (lit "x") (lit "y") (lit "a solar oven")] :=
  ⟨⟨asciiLowerCase_laws, by decide, by decide⟩,
    (projects_query_unique asciiLowerCase asciiLowerCase_laws
      [projectBy (lit "x") (lit "y") (lit "a solar oven"),
        projectBy (lit "a") (lit "b") (lit "zz")] (lit "Solar Oven") (by decide)
      0 (by decide) (by decide) (by decide)).1⟩

/-- C6 (counterexample): the query `a b` occurs in the summary of the first
record and in no field of the second, whose title is `a` and whose student is
`b`; `apply()` yields both records. -/
theorem projects_query_spans_fields :
    lit "a b" ≠ [] ∧
    occursIn asciiLowerCase (lit "a b") (lit "has a b here") = true ∧
    occursInRecord asciiLowerCase (lit "a b") (projectBy (lit "a") (lit "b") (lit "zz")) = false ∧
    ProjectsPage.filtered asciiLowerCase
      ⟨[projectBy (lit "x") (lit "y") (lit "has a b here"),
        projectBy (lit "a") (lit "b") (lit "zz")], lit "a b", [], []⟩ =
      [projectBy (lit "x") (lit "y") (lit "has a b here"),
        projectBy (lit "a") (lit "b") (lit "zz")] := by
  decide

/-! ## Hydration -/


/-- C7 (code at the failing input): `__proto__` and `toString` are not
registered renderer names, yet hydrating a mount point that declares
`__proto__` injects the "Unable to load content" fallback and reports an error,
and one that declares `toString` gets the content `[object Object]`; a name
found neither on `renderers` nor on `Object.prototype` gives empty content and
no error. -/
theorem hydrate_inherited_names (env : Env) (dataLimit : Int) (data : Dataset) :
    renderers (lit "__proto__") = none ∧
    hydrateMountpoint env (lit "__proto__") dataLimit (some data) = ⟨fallback, true⟩ ∧
    renderers (lit "toString") = none ∧
    hydrateMountpoint env (lit "toString") dataLimit (some data) =
      ⟨lit "[object Object]", false⟩ ∧
    (∀ component, renderersGet component = .undefined →
      hydrateMountpoint env component dataLimit (some data) = ⟨[], false⟩) := by
  refine ⟨by decide, ?_, by decide, ?_, ?_⟩
  · have h : renderersGet (lit "__proto__") = .protoObject := by decide
    simp only [hydrateMountpoint, h]
  · have h : renderersGet (lit "toString") = .protoFunction .toString := by decide
    simp only [hydrateMountpoint, h, callProto]
  · intro component h
    simp only [hydrateMountpoint, h]

/-! ## Lightbox -/

theorem openAll_cons (w : Window) (c : Str × Str) (cs : List (Str × Str)) :
    openAll w (c :: cs) = openAll (lightboxOpen w c.1 c.2) cs := rfl

theorem openAll_overlays (w : Window) (cs : List (Str × Str)) :
    (openAll w cs).overlays = w.overlays ∧ (openAll w cs).api = w.api := by
  induction cs generalizing w with
  | nil => exact ⟨rfl, rfl⟩
  | cons c cs ih =>
    rw [openAll_cons]
    exact ih _

theorem openAll_shown (w : Window) (c : Str × Str) (cs : List (Str × Str)) :
    (openAll w (c :: cs)).isOpen = true ∧
    (openAll w (c :: cs)).activeElement = .closeBtn ∧
    (openAll w (c :: cs)).content =
      imageMarkup ((c :: cs).getLast (List.cons_ne_nil _ _)).1
        ((c :: cs).getLast (List.cons_ne_nil _ _)).2 := by
  induction cs generalizing w c with
  | nil => exact ⟨rfl, rfl, rfl⟩
  | cons d cs ih =>
    rw [openAll_cons]
    have := ih (lightboxOpen w c.1 c.2) d
    rw [List.getLast_cons (List.cons_ne_nil _ _)]
    exact this

theorem openAll_remembers (w : Window) (c : Str × Str) (cs : List (Str × Str))
    (hw : w.activeElement = .closeBtn) :
    (openAll w (c :: cs)).lastFocused = some .closeBtn := by
  induction cs generalizing w c with
  | nil =>
    show some w.activeElement = some Element.closeBtn
    rw [hw]
  | cons d cs ih =>
    rw [openAll_cons]
    exact ih (lightboxOpen w c.1 c.2) d rfl

/-- C9 (code at the failing input): with `x` focused on a page whose lightbox
has been initialised, any two or more `open` calls followed by `close()` leave
exactly one overlay, show before the close the image of the last `open` call,
and end with the focus on the overlay's own close button, not on `x`; after a
single `open` call `close()` does return the focus to `x`. -/
theorem lightbox_reopen_focus (x : Element) (c1 c2 : Str × Str) (more : List (Str × Str)) :
    (openAll (initLightbox (Window.fresh x)) (c1 :: c2 :: more)).overlays = 1 ∧
    (lightboxClose (openAll (initLightbox (Window.fresh x)) (c1 :: c2 :: more))).overlays = 1 ∧
    (openAll (initLightbox (Window.fresh x)) (c1 :: c2 :: more)).content =
      imageMarkup ((c1 :: c2 :: more).getLast (List.cons_ne_nil _ _)).1
        ((c1 :: c2 :: more).getLast (List.cons_ne_nil _ _)).2 ∧
    (lightboxClose (openAll (initLightbox (Window.fresh x)) (c1 :: c2 :: more))).activeElement =
      .closeBtn ∧
    (lightboxClose (openAll (initLightbox (Window.fresh x)) [c1])).activeElement = x ∧
    (lightboxClose (openAll (initLightbox (Window.fresh (.page 0)))
      [(lit "a.jpg", lit "a"), (lit "b.jpg", lit "b")])).activeElement ≠ .page 0 := by
  have ho := (openAll_overlays (initLightbox (Window.fresh x)) (c1 :: c2 :: more)).1
  have hr := openAll_remembers (lightboxOpen (initLightbox (Window.fresh x)) c1.1 c1.2) c2 more rfl
  refine ⟨?_, ?_, (openAll_shown _ c1 (c2 :: more)).2.2, ?_, rfl, by decide⟩
  · rw [ho]; rfl
  · show (openAll (initLightbox (Window.fresh x)) (c1 :: c2 :: more)).overlays = 1
    rw [ho]; rfl
  · rw [openAll_cons]
    show (match (openAll _ (c2 :: more)).lastFocused with
      | some e => e
      | none => (openAll _ (c2 :: more)).activeElement) = Element.closeBtn
    rw [hr]

end CWSite
